import Mathlib

/-!
Verification development for a Pico-W firmware repository: an ADC light
sensor (adc.py), a PWM buzzer (buzzer.py), a cooperative single-flight
playback scheduler (playback.py), payload builders (device_api.py) and a
minimal JSON/HTTP router (http.py).

Numbers: Python ints are modelled as ℤ, Python floats as ℚ (all constants
appearing in the code and in the claims are exactly representable and far
from any rounding boundary).  Python `int(x)` truncation toward zero is
modelled explicitly.  Fallible Python code (raising) is modelled with
`Option`/`Except`/an explicit `raised` outcome.
-/

/-- Python `int(q)` on a float: truncation toward zero. -/
def ratTrunc (q : ℚ) : ℤ :=
  if 0 ≤ q then q.floor else -((-q).floor)

/-! ## buzzer.py

`machine.PWM` hardware state: the carrier frequency register and the
16-bit duty register (`duty_u16`).  The duty register is modelled as ℤ
because the code computes `int(65535 * duty)` and passes it on unchecked
(see C10). Module init runs `_pwm.duty_u16(0)`. -/

structure PwmState where
  freq : ℤ
  duty : ℤ
deriving DecidableEq, Repr

/-- `stop_tone()`: sets duty to 0, leaves the frequency register alone. -/
def stop_tone (p : PwmState) : PwmState :=
  { p with duty := 0 }

/-- `int(65535 * duty)` from `start_tone`. -/
def duty_val (duty : ℚ) : ℤ :=
  ratTrunc (65535 * duty)

/-- `start_tone(freq, duty)`: non-positive frequency delegates to
`stop_tone`; otherwise sets `_pwm.freq(freq)` then
`_pwm.duty_u16(int(65535 * duty))`. -/
def start_tone (freq : ℤ) (duty : ℚ) (p : PwmState) : PwmState :=
  if freq ≤ 0 then stop_tone p
  else { freq := freq, duty := duty_val duty }

/-! ## playback.py — scheduler state

`_current_task` is a module-global slot holding the most recently created
`uasyncio` task (or `None`).  We track the status of every task ever
created in a list indexed by creation order; the slot holds an index.
A task is "done" (in the sense of `Task.done()`) iff its status is
terminal (`completed` or `canceled`). -/

inductive TaskStatus where
  | running
  | completed
  | canceled
deriving DecidableEq, Repr

structure SchedState where
  pwm : PwmState
  tasks : List TaskStatus
  slot : Option ℕ
deriving DecidableEq, Repr

/-- Initial state: no task created, `_current_task = None`, duty register
zeroed by buzzer module init. -/
def schedInit : SchedState :=
  { pwm := { freq := 0, duty := 0 }, tasks := [], slot := none }

/-- Whether `_current_task` refers to a task that is not `done()`. -/
def currentRunning (s : SchedState) : Bool :=
  match s.slot with
  | some i => s.tasks.getD i .completed == .running
  | none => false

/-- `cancel_current_playback()`: if `_current_task` exists and is not
done, cancel it and call `stop_tone()`; in every case set
`_current_task = None`. -/
def cancel_current_playback (s : SchedState) : SchedState :=
  match s.slot with
  | none => { s with slot := none }
  | some i =>
      if s.tasks.getD i .completed == .running then
        { pwm := stop_tone s.pwm, tasks := s.tasks.set i .canceled, slot := none }
      else
        { s with slot := none }

/-- `asyncio.create_task(...)` followed by `_current_task = <new task>`:
a fresh task in `running` state is appended and installed in the slot. -/
def spawnTask (s : SchedState) : SchedState :=
  { s with tasks := s.tasks ++ [.running], slot := some s.tasks.length }

/-- `play_tone_for_ms(freq, ms, duty)`: cancels any existing playback,
then creates and installs the new tone task.  (The frequency, duration
and duty only matter once the event loop runs the task body; see
`run_play_note_async`.) -/
def play_tone_for_ms (s : SchedState) (freq ms : ℤ) (duty : ℚ) : SchedState :=
  spawnTask (cancel_current_playback s)

/-- `play_melody(notes, gap_ms, duty)`: cancels any existing playback,
creates and installs the melody task, and returns `len(notes)`. -/
def play_melody {α : Type} (s : SchedState) (notes : List α) (gap_ms : ℤ)
    (duty : ℚ) : ℕ × SchedState :=
  (notes.length, spawnTask (cancel_current_playback s))

/-! ## Event-loop steps and reachable states

The cooperative loop interleaves API calls with steps of the currently
running task body.  A task body step either starts a note
(`start_tone`), silences between melody notes (`stop_tone`), or reaches
its end / `finally:` block (`stop_tone` and transition to `completed`).
A task that is no longer `running` takes no further hardware action (its
`finally` already ran, see `run_play_note_async`/`run_play_melody_async`). -/

inductive SchedOp where
  | playTone (freq ms : ℤ) (duty : ℚ)
  | playMelody (notes : List (ℤ × ℤ)) (gap_ms : ℤ) (duty : ℚ)
  | cancel
  | taskStart (freq : ℤ) (duty : ℚ)
  | taskStop
  | taskComplete

def schedStep (s : SchedState) : SchedOp → SchedState
  | .playTone f m d => play_tone_for_ms s f m d
  | .playMelody ns g d => (play_melody s ns g d).2
  | .cancel => cancel_current_playback s
  | .taskStart f d =>
      if currentRunning s then { s with pwm := start_tone f d s.pwm } else s
  | .taskStop =>
      if currentRunning s then { s with pwm := stop_tone s.pwm } else s
  | .taskComplete =>
      match s.slot with
      | some i =>
          if s.tasks.getD i .completed == .running then
            { pwm := stop_tone s.pwm, tasks := s.tasks.set i .completed,
              slot := some i }
          else s
      | none => s

def schedRun (ops : List SchedOp) : SchedState :=
  ops.foldl schedStep schedInit

/-- Number of tasks currently in the `running` state. -/
def countRunning (l : List TaskStatus) : ℕ :=
  l.countP (fun t => t == .running)

/-- Scheduler invariant: every running task is the one in the slot, the
slot index is in range, and when nothing is running the buzzer is
silent. -/
def SchedInv (s : SchedState) : Prop :=
  (∀ i, s.tasks.getD i .completed = .running → s.slot = some i) ∧
  (∀ i, s.slot = some i → i < s.tasks.length) ∧
  (currentRunning s = false → s.pwm.duty = 0)

/-! ## playback.py — task bodies and the cleanup discipline

`_play_note_async` and `_play_melody_async` are coroutines whose bodies
are sequences of atomic hardware actions separated by suspension points
(`await asyncio.sleep_ms`).  A body may exit naturally (all actions run),
or be interrupted after any prefix of its actions — by cancellation
injected at a suspension point or by an error raised mid-body.  In every
case the `finally:` block runs `stop_tone()` afterwards. -/

inductive ExitMode where
  | natural
  | interruptedAt (k : ℕ)

def applyActions (acts : List (PwmState → PwmState)) (p : PwmState) : PwmState :=
  acts.foldl (fun q f => f q) p

/-- Body of `_play_note_async(freq, ms, duty)`: `start_tone(freq, duty)`
then a timed hold (no hardware effect).  The `ms` argument only controls
time, not hardware state. -/
def noteBody (freq : ℤ) (ms : ℤ) (duty : ℚ) : List (PwmState → PwmState) :=
  [fun p => start_tone freq duty p]

/-- `_play_note_async` under a given exit mode: run the body (or the
prefix reached before the interruption), then the `finally: stop_tone()`. -/
def run_play_note_async (freq ms : ℤ) (duty : ℚ) (mode : ExitMode)
    (p : PwmState) : PwmState :=
  match mode with
  | .natural => stop_tone (applyActions (noteBody freq ms duty) p)
  | .interruptedAt k => stop_tone (applyActions ((noteBody freq ms duty).take k) p)

/-- Hardware actions of one melody iteration: `start_tone(freq, duty)`,
timed hold, `stop_tone()`, timed gap. -/
def melodyNoteActs (duty : ℚ) (note : ℤ × ℤ) : List (PwmState → PwmState) :=
  [fun p => start_tone note.1 duty p, fun p => stop_tone p]

/-- Body of `_play_melody_async(notes, gap_ms, duty)`: the per-note
actions in sequence. -/
def melodyBody (notes : List (ℤ × ℤ)) (duty : ℚ) : List (PwmState → PwmState) :=
  (notes.map (melodyNoteActs duty)).join

/-- `_play_melody_async` under a given exit mode, ending with the
`finally: stop_tone()`. -/
def run_play_melody_async (notes : List (ℤ × ℤ)) (gap_ms : ℤ) (duty : ℚ)
    (mode : ExitMode) (p : PwmState) : PwmState :=
  match mode with
  | .natural => stop_tone (applyActions (melodyBody notes duty) p)
  | .interruptedAt k => stop_tone (applyActions ((melodyBody notes duty).take k) p)

/-! ## adc.py -/

/-- Calibrated dark reading. -/
def RAW_MIN : ℤ := 600

/-- Calibrated flashlight reading. -/
def RAW_MAX : ℤ := 65338

/-- Body of `normalize_raw(raw, min_in, max_in)`: clamp `raw` into
`[min_in, max_in]`, then scale linearly. -/
def normalize_raw (raw min_in max_in : ℚ) : ℚ :=
  let r := if raw < min_in then min_in else if max_in < raw then max_in else raw
  (r - min_in) / (max_in - min_in)

/-- `estimate_lux(norm)`. -/
def estimate_lux (norm : ℚ) : ℚ := norm * 1000

/-- Calling convention of `normalize_raw` as declared in adc.py: the
signature is `normalize_raw(raw: int, min_in: RAW_MIN, max_in: RAW_MAX)`
— `RAW_MIN`/`RAW_MAX` appear as *annotations*, not as default values, so
`min_in` and `max_in` are required positional parameters and any call
that omits them raises `TypeError`. -/
def normalize_raw_call (args : List ℚ) : Except Unit ℚ :=
  match args with
  | [a, b, c] => .ok (normalize_raw a b c)
  | _ => .error ()

/-! ## JSON values and HTTP responses -/

inductive Json where
  | null
  | bool (b : Bool)
  | int (n : ℤ)
  | float (q : ℚ)
  | str (s : String)
  | arr (xs : List Json)
  | obj (fields : List (String × Json))
deriving BEq

structure HttpResponse where
  status : ℕ
  body : Json

/-- Outcome of running a handler coroutine: either it sent a response,
or an exception escaped it (to be caught by `handle_client`, which then
sends a 500 `error: internal` response). -/
inductive Outcome where
  | sent (r : HttpResponse)
  | raised

/-- The status code the client ultimately sees: `handle_client` converts
an escaped exception into a 500 response. -/
def outcomeStatus : Outcome → ℕ
  | .sent r => r.status
  | .raised => 500

/-! ## device_api.py -/

/-- `sensor_payload()`: reads the ADC, then calls `normalize_raw(raw)` —
one positional argument, so the call raises `TypeError` (see
`normalize_raw_call`); otherwise it would build `{raw, norm, lux}`. -/
def sensor_payload (raw : ℤ) : Except Unit (ℤ × ℚ × ℚ) :=
  match normalize_raw_call [(raw : ℚ)] with
  | .error e => .error e
  | .ok norm => .ok (raw, norm, estimate_lux norm)

/-- `handle_get_sensor` composed with `handle_client`'s top-level
exception guard: a successful payload is sent with 200, an escaped
exception becomes a 500 `internal` response. -/
def handle_get_sensor (raw : ℤ) : HttpResponse :=
  match sensor_payload raw with
  | .ok (r, n, l) =>
      { status := 200,
        body := .obj [("raw", .int r), ("norm", .float n), ("lux", .float l)] }
  | .error _ => { status := 500, body := .obj [("error", .str "internal")] }

/-! ## Python coercions used by http.py validation

`int(x)` and `float(x)` as applied to decoded JSON values.  String forms
are modelled for optionally signed decimal literals with surrounding
whitespace (exponent forms and underscore separators are omitted; no
claim exercises them). -/

def isSpaceChar (c : Char) : Bool :=
  c == ' ' || c == '\t' || c == '\n' || c == '\r'

def trimChars (l : List Char) : List Char :=
  ((l.dropWhile isSpaceChar).reverse.dropWhile isSpaceChar).reverse

def digitsNat (l : List Char) : ℕ :=
  l.foldl (fun a c => 10 * a + (c.toNat - 48)) 0

def digitsVal (l : List Char) : Option ℕ :=
  if l ≠ [] ∧ l.all (fun c => c.isDigit) then some (digitsNat l) else none

/-- Python `int(s)` on a string. -/
def parseIntStr (s : String) : Option ℤ :=
  match trimChars s.data with
  | [] => none
  | c :: rest =>
      if c == '-' then (digitsVal rest).map (fun n => -(n : ℤ))
      else if c == '+' then (digitsVal rest).map (fun n => (n : ℤ))
      else (digitsVal (c :: rest)).map (fun n => (n : ℤ))

/-- Unsigned decimal literal, with an optional fractional part. -/
def parseUFloatChars (l : List Char) : Option ℚ :=
  let intPart := l.takeWhile (fun c => c.isDigit)
  let rest := l.dropWhile (fun c => c.isDigit)
  match rest with
  | [] => if intPart = [] then none else some (digitsNat intPart)
  | '.' :: frac =>
      if frac.all (fun c => c.isDigit) ∧ (intPart ≠ [] ∨ frac ≠ []) then
        some ((digitsNat intPart : ℚ) + (digitsNat frac : ℚ) / 10 ^ frac.length)
      else none
  | _ => none

/-- Python `float(s)` on a string. -/
def parseFloatStr (s : String) : Option ℚ :=
  match trimChars s.data with
  | [] => none
  | c :: rest =>
      if c == '-' then (parseUFloatChars rest).map (fun q => -q)
      else if c == '+' then parseUFloatChars rest
      else parseUFloatChars (c :: rest)

/-- Python `int(v)` on a decoded JSON value; `none` means a raised
`TypeError`/`ValueError`. -/
def pyInt : Json → Option ℤ
  | .int n => some n
  | .float q => some (ratTrunc q)
  | .bool b => some (if b then 1 else 0)
  | .str s => parseIntStr s
  | _ => none

/-- Python `float(v)` on a decoded JSON value. -/
def pyFloat : Json → Option ℚ
  | .int n => some (n : ℚ)
  | .float q => some q
  | .bool b => some (if b then 1 else 0)
  | .str s => parseFloatStr s
  | _ => none

/-! ## http.py — POST handlers and body handling -/

/-- `body.get(k)` on a JSON object (first binding wins). -/
def jsonLookup (fields : List (String × Json)) (k : String) : Option Json :=
  (fields.find? (fun kv => kv.1 == k)).map (fun kv => kv.2)

def invalidToneBody : Json := .obj [("error", .str "Invalid tone parameters")]

def invalidJsonBody : Json := .obj [("error", .str "Invalid JSON")]

def notFoundBody : Json := .obj [("error", .str "Not Found")]

def canceledBody : Json := .obj [("status", .str "canceled")]

/-- Validation step of `handle_post_tone`: the `try:` block.  `freq` is
required (`int(body.get("freq"))` raises on `None` or a non-coercible
value), `ms` defaults to 250, `duty` defaults to 0.5.  A non-dict body
makes `body.get` itself raise, which the same `except` catches. -/
def validateTone (body : Json) : Option (ℤ × ℤ × ℚ) :=
  match body with
  | .obj fs =>
      match (jsonLookup fs "freq").bind pyInt with
      | none => none
      | some freq =>
          match (match jsonLookup fs "ms" with
                 | none => some (250 : ℤ)
                 | some v => pyInt v) with
          | none => none
          | some ms =>
              match (match jsonLookup fs "duty" with
                     | none => some ((1 : ℚ) / 2)
                     | some v => pyFloat v) with
              | none => none
              | some duty => some (freq, ms, duty)
  | _ => none

/-- `handle_post_tone(body, writer)` threaded through the scheduler
state.  On validation failure it sends 400 and touches nothing.  On
success it runs `play_tone_for_ms(...)` — which schedules the task —
and then `await`s its `None` return value, which raises `TypeError`, so
the handler never reaches its 202 `send_json` and the exception escapes
to `handle_client`. -/
def handle_post_tone (body : Json) (s : SchedState) : Outcome × SchedState :=
  match validateTone body with
  | none => (.sent { status := 400, body := invalidToneBody }, s)
  | some (freq, ms, duty) => (.raised, play_tone_for_ms s freq ms duty)

/-- A melody note passes `handle_post_melody` validation iff it is a
JSON array of exactly two elements. -/
def melodyNoteOk : Json → Bool
  | .arr xs => xs.length == 2
  | _ => false

/-- Validation step of `handle_post_melody`. -/
def validateMelody (body : Json) : Option (List Json × ℤ × ℚ) :=
  match body with
  | .obj fs =>
      match (match jsonLookup fs "notes" with
             | none => some []
             | some (.arr xs) => if xs.all melodyNoteOk then some xs else none
             | some _ => none) with
      | none => none
      | some notes =>
          match (match jsonLookup fs "gap_ms" with
                 | none => some (50 : ℤ)
                 | some v => pyInt v) with
          | none => none
          | some gap =>
              match (match jsonLookup fs "duty" with
                     | none => some ((1 : ℚ) / 2)
                     | some v => pyFloat v) with
              | none => none
              | some duty => some (notes, gap, duty)
  | _ => none

def invalidMelodyBody : Json := .obj [("error", .str "Invalid melody payload")]

/-- `handle_post_melody`: like `handle_post_tone`, the success path
`await`s the plain `int` returned by `play_melody`, which raises. -/
def handle_post_melody (body : Json) (s : SchedState) : Outcome × SchedState :=
  match validateMelody body with
  | none => (.sent { status := 400, body := invalidMelodyBody }, s)
  | some (notes, gap, duty) => (.raised, (play_melody s notes gap duty).2)

/-- `handle_post_cancel`: cancels playback and sends 202. -/
def handle_post_cancel (s : SchedState) : Outcome × SchedState :=
  (.sent { status := 202, body := canceledBody }, cancel_current_playback s)

/-- The POST body-read loop of `handle_client`: read up to
`content-length` bytes, accepting a short read. -/
def readBody (clen : ℕ) (streamDat : String) : String :=
  String.mk (streamDat.data.take clen)

/-- POST dispatch of `handle_client`, parameterized by the `ujson.loads`
parser: an empty `body_bytes` is falsy, so the body is taken to be `{}`
without consulting the parser; otherwise a parse failure sends 400
`Invalid JSON`. -/
def routePost (parse : String → Option Json) (path : String)
    (bodyBytes : String) (s : SchedState) : Outcome × SchedState :=
  let bodyJ : Option Json :=
    if bodyBytes.isEmpty then some (.obj []) else parse bodyBytes
  match bodyJ with
  | none => (.sent { status := 400, body := invalidJsonBody }, s)
  | some body =>
      if path = "/tone" then handle_post_tone body s
      else if path = "/melody" then handle_post_melody body s
      else if path = "/cancel" then handle_post_cancel s
      else (.sent { status := 404, body := notFoundBody }, s)

/-! ## Module-level names: the import contract between http.py and
device_api.py -/

/-- Top-level names defined by device_api.py. -/
def deviceApiDefs : List String :=
  ["sensor_payload", "health_payload"]

/-- Names that http.py imports `from device_api`. -/
def httpDeviceApiImports : List String :=
  ["sensor_payload", "health_payload", "play_tone_for_ms", "play_melody",
   "cancel_playback"]

/-! ### List helper lemmas -/

theorem getD_cons_zero' {α : Type} (a : α) (l : List α) (d : α) :
    (a :: l).getD 0 d = a := rfl

theorem getD_cons_succ' {α : Type} (a : α) (l : List α) (i : ℕ) (d : α) :
    (a :: l).getD (i + 1) d = l.getD i d := rfl

theorem getD_of_len_le {α : Type} :
    ∀ (l : List α) (i : ℕ) (d : α), l.length ≤ i → l.getD i d = d := by
  intro l
  induction l with
  | nil => intro i d _; cases i <;> rfl
  | cons a t ih =>
      intro i d h
      cases i with
      | zero => simp at h
      | succ j =>
          rw [getD_cons_succ']
          exact ih j d (by simpa using h)

theorem getD_append_lt {α : Type} :
    ∀ (l m : List α) (i : ℕ) (d : α), i < l.length →
      (l ++ m).getD i d = l.getD i d := by
  intro l
  induction l with
  | nil => intro m i d h; simp at h
  | cons a t ih =>
      intro m i d h
      cases i with
      | zero => rfl
      | succ j =>
          rw [List.cons_append, getD_cons_succ', getD_cons_succ']
          exact ih m j d (by simpa using h)

theorem getD_append_len {α : Type} :
    ∀ (l : List α) (a d : α), (l ++ [a]).getD l.length d = a := by
  intro l
  induction l with
  | nil => intro a d; rfl
  | cons b t ih =>
      intro a d
      rw [List.cons_append, List.length_cons, getD_cons_succ']
      exact ih a d

theorem getD_set_self {α : Type} :
    ∀ (l : List α) (i : ℕ) (a d : α), i < l.length →
      (l.set i a).getD i d = a := by
  intro l
  induction l with
  | nil => intro i a d h; simp at h
  | cons b t ih =>
      intro i a d h
      cases i with
      | zero => rfl
      | succ j =>
          rw [List.set_cons_succ, getD_cons_succ']
          exact ih j a d (by simpa using h)

theorem getD_set_ne {α : Type} :
    ∀ (l : List α) (i j : ℕ) (a d : α), j ≠ i →
      (l.set i a).getD j d = l.getD j d := by
  intro l
  induction l with
  | nil => intro i j a d _; rfl
  | cons b t ih =>
      intro i j a d hne
      cases i with
      | zero =>
          cases j with
          | zero => exact absurd rfl hne
          | succ k => rfl
      | succ i' =>
          cases j with
          | zero => rfl
          | succ k =>
              rw [List.set_cons_succ, getD_cons_succ', getD_cons_succ']
              exact ih i' k a d (fun h => hne (by rw [h]))

theorem exists_getD_of_mem {α : Type} {x : α} :
    ∀ {l : List α} (d : α), x ∈ l → ∃ j, l.getD j d = x := by
  intro l
  induction l with
  | nil => intro d h; simp at h
  | cons a t ih =>
      intro d h
      rcases List.mem_cons.mp h with h0 | ht
      · exact ⟨0, h0.symm⟩
      · obtain ⟨j, hj⟩ := ih d ht
        exact ⟨j + 1, hj⟩

/-- If all `running` positions coincide, at most one task is running. -/
theorem countRunning_le_one :
    ∀ (l : List TaskStatus),
      (∀ i j, l.getD i .completed = .running → l.getD j .completed = .running →
        i = j) →
      countRunning l ≤ 1 := by
  intro l
  induction l with
  | nil => intro _; simp [countRunning]
  | cons a t ih =>
      intro h
      by_cases ha : a = TaskStatus.running
      · have hz : countRunning t = 0 := by
          by_contra hnz
          have hpos : 0 < t.countP (fun x => x == TaskStatus.running) :=
            Nat.pos_of_ne_zero hnz
          obtain ⟨x, hx, hpx⟩ := List.countP_pos.mp hpos
          have hxr : x = TaskStatus.running := by
            simpa using hpx
          obtain ⟨j, hj⟩ := exists_getD_of_mem TaskStatus.completed
            (hxr ▸ hx)
          have h0 : (a :: t).getD 0 .completed = .running := by
            rw [getD_cons_zero']; exact ha
          have hj1 : (a :: t).getD (j + 1) .completed = .running := by
            rw [getD_cons_succ']; exact hj
          exact absurd (h 0 (j + 1) h0 hj1) (by simp)
        have : countRunning (a :: t) = countRunning t + 1 := by
          unfold countRunning
          rw [List.countP_cons_of_pos]
          simp [ha]
        omega
      · have : countRunning (a :: t) = countRunning t := by
          unfold countRunning
          rw [List.countP_cons_of_neg]
          simp [ha]
        rw [this]
        apply ih
        intro i j hi hj
        have := h (i + 1) (j + 1) (by rw [getD_cons_succ']; exact hi)
          (by rw [getD_cons_succ']; exact hj)
        omega

/-! ### Scheduler invariant preservation -/

theorem cancel_eq_of_slot_none (pwm : PwmState) (tasks : List TaskStatus) :
    cancel_current_playback ⟨pwm, tasks, none⟩ = ⟨pwm, tasks, none⟩ := rfl

theorem cancel_eq_of_slot_some (pwm : PwmState) (tasks : List TaskStatus)
    (i : ℕ) :
    cancel_current_playback ⟨pwm, tasks, some i⟩ =
      if tasks.getD i .completed == .running then
        ⟨stop_tone pwm, tasks.set i .canceled, none⟩
      else ⟨pwm, tasks, none⟩ := rfl

theorem currentRunning_of_slot_none (pwm : PwmState) (tasks : List TaskStatus) :
    currentRunning ⟨pwm, tasks, none⟩ = false := rfl

theorem currentRunning_of_slot_some (pwm : PwmState) (tasks : List TaskStatus)
    (i : ℕ) :
    currentRunning ⟨pwm, tasks, some i⟩ =
      (tasks.getD i .completed == .running) := rfl

theorem taskComplete_of_slot_none (pwm : PwmState) (tasks : List TaskStatus) :
    schedStep ⟨pwm, tasks, none⟩ .taskComplete = ⟨pwm, tasks, none⟩ := rfl

theorem taskComplete_of_slot_some (pwm : PwmState) (tasks : List TaskStatus)
    (i : ℕ) :
    schedStep ⟨pwm, tasks, some i⟩ .taskComplete =
      if tasks.getD i .completed == .running then
        ⟨stop_tone pwm, tasks.set i .completed, some i⟩
      else ⟨pwm, tasks, some i⟩ := rfl

theorem schedInv_init : SchedInv schedInit := by
  refine ⟨?_, ?_, ?_⟩
  · intro i h
    rw [getD_of_len_le _ _ _ (by simp [schedInit])] at h
    cases h
  · intro i h
    simp [schedInit] at h
  · intro _
    rfl

theorem cancel_slot_none (s : SchedState) :
    (cancel_current_playback s).slot = none := by
  obtain ⟨pwm, tasks, slot⟩ := s
  cases slot with
  | none => rfl
  | some i =>
      rw [cancel_eq_of_slot_some]
      split <;> rfl

theorem cancel_no_running (s : SchedState) (h : SchedInv s) :
    ∀ j, (cancel_current_playback s).tasks.getD j .completed ≠ .running := by
  obtain ⟨h1, h2, h3⟩ := h
  obtain ⟨pwm, tasks, slot⟩ := s
  intro j hj
  cases slot with
  | none =>
      rw [cancel_eq_of_slot_none] at hj
      have := h1 j hj
      simp at this
  | some i =>
      rw [cancel_eq_of_slot_some] at hj
      by_cases hr : tasks.getD i .completed = .running
      · rw [if_pos (by simpa using hr)] at hj
        have hil : i < tasks.length := h2 i rfl
        by_cases hji : j = i
        · rw [hji, getD_set_self _ _ _ _ hil] at hj
          cases hj
        · rw [getD_set_ne _ _ _ _ _ hji] at hj
          have := h1 j hj
          simp at this
          exact hji this.symm
      · rw [if_neg (by simpa using hr)] at hj
        have := h1 j hj
        simp at this
        exact hr (this ▸ hj)

theorem cancel_duty_zero (s : SchedState) (h : SchedInv s) :
    (cancel_current_playback s).pwm.duty = 0 := by
  obtain ⟨h1, h2, h3⟩ := h
  obtain ⟨pwm, tasks, slot⟩ := s
  cases slot with
  | none =>
      rw [cancel_eq_of_slot_none]
      exact h3 (currentRunning_of_slot_none pwm tasks)
  | some i =>
      rw [cancel_eq_of_slot_some]
      by_cases hr : tasks.getD i .completed = .running
      · rw [if_pos (by simpa using hr)]
        rfl
      · rw [if_neg (by simpa using hr)]
        refine h3 ?_
        rw [currentRunning_of_slot_some]
        simpa using hr

theorem schedInv_cancel (s : SchedState) (h : SchedInv s) :
    SchedInv (cancel_current_playback s) := by
  refine ⟨?_, ?_, ?_⟩
  · intro j hj
    exact absurd hj (cancel_no_running s h j)
  · intro i hi
    rw [cancel_slot_none s] at hi
    cases hi
  · intro _
    exact cancel_duty_zero s h

theorem schedInv_spawn (s : SchedState)
    (hnr : ∀ j, s.tasks.getD j .completed ≠ .running) :
    SchedInv (spawnTask s) := by
  refine ⟨?_, ?_, ?_⟩
  · intro j hj
    simp only [spawnTask] at hj ⊢
    rcases lt_trichotomy j s.tasks.length with hlt | heq | hgt
    · rw [getD_append_lt _ _ _ _ hlt] at hj
      exact absurd hj (hnr j)
    · rw [heq]
    · rw [getD_of_len_le _ _ _ (by simp; omega)] at hj
      cases hj
  · intro i hi
    simp only [spawnTask] at hi
    have : s.tasks.length = i := by simpa using hi
    simp [spawnTask, ← this]
  · intro hcr
    exfalso
    unfold currentRunning at hcr
    simp only [spawnTask] at hcr
    rw [getD_append_len] at hcr
    simp at hcr

theorem schedInv_step (s : SchedState) (op : SchedOp) (h : SchedInv s) :
    SchedInv (schedStep s op) := by
  cases op with
  | playTone f m d =>
      exact schedInv_spawn _ (cancel_no_running s h)
  | playMelody ns g d =>
      exact schedInv_spawn _ (cancel_no_running s h)
  | cancel =>
      exact schedInv_cancel s h
  | taskStart f d =>
      simp only [schedStep]
      by_cases hc : currentRunning s
      · obtain ⟨h1, h2, h3⟩ := h
        rw [if_pos hc]
        refine ⟨h1, h2, ?_⟩
        intro hcr
        exfalso
        unfold currentRunning at hcr hc
        simp only at hcr
        rw [hcr] at hc
        cases hc
      · rw [if_neg hc]
        exact h
  | taskStop =>
      simp only [schedStep]
      by_cases hc : currentRunning s
      · obtain ⟨h1, h2, h3⟩ := h
        rw [if_pos hc]
        exact ⟨h1, h2, fun _ => rfl⟩
      · rw [if_neg hc]
        exact h
  | taskComplete =>
      obtain ⟨h1, h2, h3⟩ := h
      obtain ⟨pwm, tasks, slot⟩ := s
      cases slot with
      | none =>
          rw [taskComplete_of_slot_none]
          exact ⟨h1, h2, h3⟩
      | some i =>
          rw [taskComplete_of_slot_some]
          by_cases hr : tasks.getD i .completed = .running
          · rw [if_pos (by simpa using hr)]
            have hil : i < tasks.length := h2 i rfl
            refine ⟨?_, ?_, ?_⟩
            · intro j hj
              simp only at hj
              by_cases hji : j = i
              · rw [hji, getD_set_self _ _ _ _ hil] at hj
                cases hj
              · rw [getD_set_ne _ _ _ _ _ hji] at hj
                have := h1 j hj
                simp at this
                exact absurd this.symm hji
            · intro j hj
              simp only at hj
              have : i = j := by simpa using hj
              simp [← this, hil]
            · intro _
              rfl
          · rw [if_neg (by simpa using hr)]
            exact ⟨h1, h2, h3⟩

theorem schedInv_foldl :
    ∀ (ops : List SchedOp) (s : SchedState), SchedInv s →
      SchedInv (ops.foldl schedStep s) := by
  intro ops
  induction ops with
  | nil => intro s h; exact h
  | cons a t ih =>
      intro s h
      exact ih (schedStep s a) (schedInv_step s a h)

theorem schedInv_run (ops : List SchedOp) : SchedInv (schedRun ops) :=
  schedInv_foldl ops schedInit schedInv_init

/-! ### Derived scheduler facts -/

theorem cancel_idempotent (s : SchedState) :
    cancel_current_playback (cancel_current_playback s) =
      cancel_current_playback s := by
  obtain ⟨pwm, tasks, slot⟩ := s
  cases slot with
  | none => rfl
  | some i =>
      rw [cancel_eq_of_slot_some]
      by_cases hr : tasks.getD i .completed = .running
      · rw [if_pos (by simpa using hr)]
        rfl
      · rw [if_neg (by simpa using hr)]
        rfl

theorem cancel_noop_of_not_running (s : SchedState)
    (h : currentRunning s = false) :
    (cancel_current_playback s).pwm = s.pwm ∧
    (cancel_current_playback s).tasks = s.tasks := by
  obtain ⟨pwm, tasks, slot⟩ := s
  cases slot with
  | none => exact ⟨rfl, rfl⟩
  | some i =>
      rw [currentRunning_of_slot_some] at h
      rw [cancel_eq_of_slot_some, if_neg (by simpa using h)]
      exact ⟨rfl, rfl⟩

/-! ### Arithmetic facts about normalization -/

theorem normalize_raw_spec (x lo hi : ℚ) (h : lo < hi) :
    (0 ≤ normalize_raw x lo hi ∧ normalize_raw x lo hi ≤ 1) ∧
    normalize_raw lo lo hi = 0 ∧
    normalize_raw hi lo hi = 1 ∧
    (x < lo → normalize_raw x lo hi = 0) ∧
    (hi < x → normalize_raw x lo hi = 1) := by
  have hpos : (0 : ℚ) < hi - lo := by linarith
  have key : ∀ y : ℚ, normalize_raw y lo hi =
      ((if y < lo then lo else if hi < y then hi else y) - lo) / (hi - lo) :=
    fun y => rfl
  have hone : normalize_raw hi lo hi = 1 := by
    rw [key, if_neg (by linarith), if_neg (lt_irrefl hi)]
    exact div_self (ne_of_gt hpos)
  refine ⟨?_, ?_, hone, ?_, ?_⟩
  · rw [key]
    have hlo : lo ≤ (if x < lo then lo else if hi < x then hi else x) := by
      split_ifs <;> linarith
    have hhi : (if x < lo then lo else if hi < x then hi else x) ≤ hi := by
      split_ifs with h1 h2
      · linarith
      · linarith
      · exact le_of_not_lt h2
    constructor
    · exact div_nonneg (by linarith) (by linarith)
    · rw [div_le_one hpos]
      linarith
  · rw [key, if_neg (lt_irrefl lo), if_neg (by linarith)]
    rw [sub_self, zero_div]
  · intro hx
    rw [key, if_pos hx, sub_self, zero_div]
  · intro hx
    rw [key, if_neg (by linarith), if_pos hx]
    exact div_self (ne_of_gt hpos)

/-! ## Claim theorems -/

/-- C1: single-flight invariant.  On every operation sequence from the
initial state, at most one task is in the `running` state; both
`play_tone_for_ms` and `play_melody` are literally "cancel the current
playback, then install the new task"; and on every reachable state the
cancellation step leaves the duty register at zero before the new task
is installed. -/
theorem C1_single_flight :
    (∀ ops : List SchedOp, countRunning (schedRun ops).tasks ≤ 1) ∧
    (∀ (s : SchedState) (freq ms : ℤ) (duty : ℚ),
      play_tone_for_ms s freq ms duty = spawnTask (cancel_current_playback s)) ∧
    (∀ (s : SchedState) (notes : List (ℤ × ℤ)) (gap_ms : ℤ) (duty : ℚ),
      play_melody s notes gap_ms duty =
        (notes.length, spawnTask (cancel_current_playback s))) ∧
    (∀ ops : List SchedOp,
      (cancel_current_playback (schedRun ops)).pwm.duty = 0) := by
  refine ⟨?_, fun s f m d => rfl, fun s ns g d => rfl, ?_⟩
  · intro ops
    obtain ⟨h1, h2, h3⟩ := schedInv_run ops
    apply countRunning_le_one
    intro i j hi hj
    have hsi := h1 i hi
    have hsj := h1 j hj
    rw [hsi] at hsj
    exact Option.some_injective _ hsj
  · intro ops
    exact cancel_duty_zero _ (schedInv_run ops)

/-- C2: the spec promises `GET /sensor` → 200 with `{raw, norm, lux}`,
but `sensor_payload` calls `normalize_raw(raw)` with one positional
argument while adc.py declares `min_in` and `max_in` without default
values (`min_in: RAW_MIN` is an annotation, not a default), so the call
raises `TypeError` for every raw sample and `handle_client` answers 500
instead of 200. -/
theorem C2_sensor_route_raises :
    ∀ raw : ℤ, sensor_payload raw = .error () ∧
      (handle_get_sensor raw).status = 500 :=
  fun _ => ⟨rfl, rfl⟩

/-- C3: cleanup guarantee.  Whichever way a tone or melody task body
exits — natural completion, or cancellation/error after any prefix of
its actions — the `finally: stop_tone()` runs and the duty register ends
at zero. -/
theorem C3_cleanup_guarantee :
    (∀ (freq ms : ℤ) (duty : ℚ) (mode : ExitMode) (p : PwmState),
      (run_play_note_async freq ms duty mode p).duty = 0) ∧
    (∀ (notes : List (ℤ × ℤ)) (gap_ms : ℤ) (duty : ℚ) (mode : ExitMode)
      (p : PwmState),
      (run_play_melody_async notes gap_ms duty mode p).duty = 0) := by
  constructor
  · intro freq ms duty mode p
    cases mode <;> rfl
  · intro notes gap_ms duty mode p
    cases mode <;> rfl

/-- C4: on every reachable state, `cancel_current_playback` leaves the
buzzer silent; it is idempotent on every state; and when no task is
running it changes neither the hardware nor any task status (it only
drops the reference to a finished task), i.e. it is a successful
no-op. -/
theorem C4_cancel_silent_idempotent :
    (∀ ops : List SchedOp,
      (cancel_current_playback (schedRun ops)).pwm.duty = 0) ∧
    (∀ s : SchedState,
      cancel_current_playback (cancel_current_playback s) =
        cancel_current_playback s) ∧
    (∀ s : SchedState, currentRunning s = false →
      (cancel_current_playback s).pwm = s.pwm ∧
      (cancel_current_playback s).tasks = s.tasks) :=
  ⟨fun ops => cancel_duty_zero _ (schedInv_run ops),
   cancel_idempotent,
   cancel_noop_of_not_running⟩

/-- C4 witness: at the initial state (no task running), cancellation is
silent and a no-op, and cancelling twice equals cancelling once. -/
theorem C4_cancel_silent_idempotent_witness :
    (cancel_current_playback (schedRun [])).pwm.duty = 0 ∧
    cancel_current_playback (cancel_current_playback schedInit) =
      cancel_current_playback schedInit ∧
    currentRunning schedInit = false ∧
    (cancel_current_playback schedInit).pwm = schedInit.pwm :=
  ⟨C4_cancel_silent_idempotent.1 [],
   C4_cancel_silent_idempotent.2.1 schedInit,
   rfl,
   (C4_cancel_silent_idempotent.2.2 schedInit rfl).1⟩

/-- C5: `normalize_raw` called with the calibration constants maps every
integer reading into [0, 1], hits exactly 0 at `RAW_MIN` and exactly 1
at `RAW_MAX`, and clamps rather than extrapolates outside the range. -/
theorem C5_normalize_raw_props :
    ∀ r : ℤ,
      (0 ≤ normalize_raw (r : ℚ) (RAW_MIN : ℚ) (RAW_MAX : ℚ) ∧
        normalize_raw (r : ℚ) (RAW_MIN : ℚ) (RAW_MAX : ℚ) ≤ 1) ∧
      normalize_raw (RAW_MIN : ℚ) (RAW_MIN : ℚ) (RAW_MAX : ℚ) = 0 ∧
      normalize_raw (RAW_MAX : ℚ) (RAW_MIN : ℚ) (RAW_MAX : ℚ) = 1 ∧
      ((r : ℚ) < (RAW_MIN : ℚ) →
        normalize_raw (r : ℚ) (RAW_MIN : ℚ) (RAW_MAX : ℚ) = 0) ∧
      ((RAW_MAX : ℚ) < (r : ℚ) →
        normalize_raw (r : ℚ) (RAW_MIN : ℚ) (RAW_MAX : ℚ) = 1) := by
  intro r
  have h : (RAW_MIN : ℚ) < (RAW_MAX : ℚ) := by norm_num [RAW_MIN, RAW_MAX]
  obtain ⟨hb, h0, h1, hlo, hhi⟩ := normalize_raw_spec (r : ℚ) _ _ h
  exact ⟨hb, h0, h1, hlo, hhi⟩

/-- C5 witness: a dark reading of 0 clamps to 0 and a saturated reading
of 70000 clamps to 1. -/
theorem C5_normalize_raw_props_witness :
    normalize_raw ((0 : ℤ) : ℚ) (RAW_MIN : ℚ) (RAW_MAX : ℚ) = 0 ∧
    normalize_raw ((70000 : ℤ) : ℚ) (RAW_MIN : ℚ) (RAW_MAX : ℚ) = 1 :=
  ⟨(C5_normalize_raw_props 0).2.2.2.1 (by norm_num [RAW_MIN]),
   (C5_normalize_raw_props 70000).2.2.2.2 (by norm_num [RAW_MAX])⟩

/-- C6: the spec promises 202 with an echo body, but http.py imports
`play_tone_for_ms` from device_api, which does not define it (the server
cannot even start), and — with the import pointed at playback.py as
intended — the handler `await`s the `None` returned by the plain
function `play_tone_for_ms`, so after scheduling the tone it raises and
the client receives 500, never the 202 echo. -/
theorem C6_post_tone_route :
    ("play_tone_for_ms" ∈ httpDeviceApiImports ∧
      "play_tone_for_ms" ∉ deviceApiDefs) ∧
    (∀ s : SchedState,
      handle_post_tone
          (.obj [("freq", .int 440), ("ms", .int 200), ("duty", .float (1/2))])
          s =
        (.raised, play_tone_for_ms s 440 200 (1/2))) ∧
    (∀ s : SchedState,
      outcomeStatus
        (handle_post_tone
          (.obj [("freq", .int 440), ("ms", .int 200), ("duty", .float (1/2))])
          s).1 = 500) :=
  ⟨⟨by decide, by decide⟩, fun _ => rfl, fun _ => rfl⟩

/-- C7: a `/tone` body whose `freq` field is present but not coercible
to an integer is answered 400 `Invalid tone parameters` and the
scheduler state is untouched. -/
theorem C7_invalid_tone_params :
    ∀ (fs : List (String × Json)) (v : Json) (s : SchedState),
      jsonLookup fs "freq" = some v → pyInt v = none →
      handle_post_tone (.obj fs) s =
        (.sent { status := 400, body := invalidToneBody }, s) := by
  intro fs v s hl hp
  simp [handle_post_tone, validateTone, hl, hp]

/-- C7 witness: the body `{"freq": "abc"}` is rejected with 400 and the
initial scheduler state is unchanged. -/
theorem C7_invalid_tone_params_witness :
    jsonLookup [("freq", Json.str "abc")] "freq" = some (Json.str "abc") ∧
    pyInt (Json.str "abc") = none ∧
    handle_post_tone (Json.obj [("freq", Json.str "abc")]) schedInit =
      (.sent { status := 400, body := invalidToneBody }, schedInit) :=
  ⟨rfl, rfl,
   C7_invalid_tone_params [("freq", Json.str "abc")] (Json.str "abc")
     schedInit rfl rfl⟩

/-- C8: `start_tone` with a non-positive frequency has exactly the
effect of `stop_tone` (duty zeroed, frequency register untouched), and
`stop_tone` is idempotent — always safe to call. -/
theorem C8_start_stop_algebra :
    (∀ (freq : ℤ) (duty : ℚ) (p : PwmState), freq ≤ 0 →
      start_tone freq duty p = stop_tone p) ∧
    (∀ p : PwmState, stop_tone (stop_tone p) = stop_tone p) := by
  constructor
  · intro f d p h
    unfold start_tone
    rw [if_pos h]
  · intro p
    rfl

/-- C8 witness: `start_tone 0` on a sounding PWM state equals
`stop_tone` on it. -/
theorem C8_start_stop_algebra_witness :
    (0 : ℤ) ≤ 0 ∧
    start_tone 0 (1/2) { freq := 440, duty := 32767 } =
      stop_tone { freq := 440, duty := 32767 } :=
  ⟨le_refl 0,
   C8_start_stop_algebra.1 0 (1/2) { freq := 440, duty := 32767 } (le_refl 0)⟩

/-- C9: an empty POST body (declared length 0, or a short read yielding
zero bytes) is treated as the empty JSON object, not as a parse error:
`/cancel` with no body succeeds with 202, and `/tone` with no body gets
400 `Invalid tone parameters` (missing `freq`), not `Invalid JSON` —
whatever the JSON parser would do. -/
theorem C9_empty_body_as_object :
    (∀ (parse : String → Option Json) (s : SchedState),
      routePost parse "/cancel" "" s =
        (.sent { status := 202, body := canceledBody },
          cancel_current_playback s)) ∧
    (∀ (parse : String → Option Json) (s : SchedState),
      routePost parse "/tone" "" s =
        (.sent { status := 400, body := invalidToneBody }, s)) ∧
    (∀ streamDat : String, readBody 0 streamDat = "") ∧
    (∀ clen : ℕ, readBody clen "" = "") := by
  refine ⟨fun parse s => rfl, fun parse s => rfl, fun sd => rfl, ?_⟩
  intro clen
  cases clen <;> rfl

/-- C10: the public interface never validates `duty` against [0, 1]: the
body `{"freq":440,"ms":200,"duty":2.0}` passes validation and reaches
the scheduler, and `start_tone` computes `int(65535 * duty) = 131070`,
outside the u16 range, writing it to the duty register unchecked
(similarly `duty = -1.0` yields −65535). -/
theorem C10_duty_unchecked :
    (∀ s : SchedState,
      handle_post_tone
          (.obj [("freq", .int 440), ("ms", .int 200), ("duty", .float 2)]) s =
        (.raised, play_tone_for_ms s 440 200 2)) ∧
    duty_val 2 = 131070 ∧
    ¬(duty_val 2 ≤ 65535) ∧
    (∀ p : PwmState, (start_tone 440 2 p).duty = 131070) ∧
    duty_val (-1) = -65535 ∧
    duty_val (-1) < 0 := by
  have h2 : duty_val 2 = 131070 := by
    unfold duty_val ratTrunc
    rw [if_pos (by norm_num)]
    show ⌊(65535 * 2 : ℚ)⌋ = 131070
    norm_num
  have hneg : duty_val (-1) = -65535 := by
    unfold duty_val ratTrunc
    rw [if_neg (by norm_num)]
    show -(⌊-(65535 * (-1 : ℚ))⌋) = -65535
    norm_num
  refine ⟨fun s => rfl, h2, by rw [h2]; norm_num, ?_, hneg, by rw [hneg]; norm_num⟩
  intro p
  unfold start_tone
  rw [if_neg (by norm_num)]
  exact h2
